import Mathlib

/-!
Verification of the amused-py Muse headset library against its
natural-language specification.

The Python sources are shallowly embedded: byte strings become `List ℕ`
(with values < 256), floating-point sample arithmetic becomes exact `ℚ`
arithmetic, Python dicts become association lists, and the sequential
effectful bodies of the BLE examples become explicit event traces.
-/

namespace Amused

/-! ## Command Protocol Driver (src/examples/06_viz_qasync.py)

`COMMANDS` is the control-command table of `06_viz_qasync.py` lines 36–43,
each value transcribed byte-for-byte from its `bytes.fromhex` literal. -/

def COMMANDS : String → List ℕ
  | "v6" => [0x03, 0x76, 0x36, 0x0a]
  | "s" => [0x02, 0x73, 0x0a]
  | "h" => [0x02, 0x68, 0x0a]
  | "p1034" => [0x06, 0x70, 0x31, 0x30, 0x33, 0x34, 0x0a]
  | "dc001" => [0x06, 0x64, 0x63, 0x30, 0x30, 0x31, 0x0a]
  | "L1" => [0x03, 0x4c, 0x31, 0x0a]
  | _ => []

def CONTROL_CHAR_UUID : String := "273e0001-4c4d-454d-96be-f03bac821358"

def SENSOR_CHAR_UUID : String := "273e0013-4c4d-454d-96be-f03bac821358"

/-- The ASCII byte sequence of a command name (Python `str` → bytes). -/
def asciiOf (s : String) : List ℕ := s.data.map Char.toNat

/-- One BLE-visible effect of `connect_and_stream`: a GATT characteristic
write, an `asyncio.sleep`, or a notification subscription. -/
inductive BLEEvent where
  | write (uuid : String) (data : List ℕ)
  | sleep (seconds : ℚ)
  | startNotify (uuid : String)
  deriving DecidableEq

/-- The effect trace of the initialization section of
`MuseVisualizerWindow.connect_and_stream` (lines 174–189), one element per
`await` statement, in program order. -/
def connectAndStreamTrace : List BLEEvent :=
  [ BLEEvent.write CONTROL_CHAR_UUID (COMMANDS "h"),
    BLEEvent.sleep (1/2),
    BLEEvent.write CONTROL_CHAR_UUID (COMMANDS "p1034"),
    BLEEvent.sleep (1/2),
    BLEEvent.write CONTROL_CHAR_UUID (COMMANDS "dc001"),
    BLEEvent.sleep (1/5),
    BLEEvent.write CONTROL_CHAR_UUID (COMMANDS "dc001"),
    BLEEvent.sleep (1/5),
    BLEEvent.write CONTROL_CHAR_UUID (COMMANDS "L1"),
    BLEEvent.startNotify SENSOR_CHAR_UUID ]

/-- The sequence of payloads written to a given characteristic in a trace. -/
def writesTo (uuid : String) (t : List BLEEvent) : List (List ℕ) :=
  t.filterMap fun e =>
    match e with
    | BLEEvent.write u d => if u = uuid then some d else none
    | _ => none

/-! ## Heart rate from PPG, threshold method
(src/examples/12_simple_metrics.py, `update_display` lines 198–217)

PPG samples are raw ADC values processed in floating point by numpy; the
arithmetic involved (mean, difference, division) is exact on the inputs
the code manipulates, so it is embedded over `ℚ`. -/

/-- `np.mean` over a list of rationals (`0` on the empty list, which every
use below guards against). -/
def meanQ (l : List ℚ) : ℚ := l.sum / l.length

/-- Python `lst[-n:]`: the last `n` elements (the whole list when it is
shorter). -/
def lastN {α : Type} (n : ℕ) (l : List α) : List α := l.drop (l.length - n)

/-- The threshold peak detector of `update_display` (lines 203–208): the
indices `i` of `range(1, len(ppg_array)-1)` whose sample strictly exceeds
the window mean and both immediate neighbors. -/
def findPeaksThreshold (ppg_array : List ℚ) : List ℕ :=
  let mean_val := meanQ ppg_array
  (List.range ppg_array.length).filter fun i =>
    decide (1 ≤ i) && decide (i + 1 < ppg_array.length) &&
    decide (mean_val < ppg_array.getD i 0) &&
    decide (ppg_array.getD (i - 1) 0 < ppg_array.getD i 0) &&
    decide (ppg_array.getD (i + 1) 0 < ppg_array.getD i 0)

/-- `np.diff(peaks) / 64.0`: inter-peak intervals in seconds at the 64 Hz
PPG sampling rate. -/
def intervalsSec (peaks : List ℕ) : List ℚ :=
  (List.zipWith (fun a b => (b : ℚ) - (a : ℚ)) peaks peaks.tail).map (· / 64)

/-- The PPG fallback branch of `update_display` (lines 198–217): with at
least 128 buffered samples, run the threshold peak detector on the last
256 samples and, when more than two peaks were found, accept
`60 / mean(intervals)` only strictly inside 40–180 BPM. `none` means the
branch produced no new heart-rate value. -/
def calcHRFromPPG (ppg_history : List ℚ) : Option ℚ :=
  if 128 ≤ ppg_history.length then
    let ppg_array := lastN 256 ppg_history
    let peaks := findPeaksThreshold ppg_array
    if 2 < peaks.length then
      let hr_calc := 60 / meanQ (intervalsSec peaks)
      if 40 < hr_calc ∧ hr_calc < 180 then some hr_calc else none
    else none
  else none

theorem getD_replicate {c : ℚ} {n i : ℕ} (h : i < n) :
    (List.replicate n c).getD i 0 = c := by
  rw [List.getD_eq_getElem?_getD, List.getElem?_replicate]
  simp [h]

/-- On a constant window no index beats its left neighbor, so the
threshold detector finds nothing. -/
theorem findPeaksThreshold_replicate (c : ℚ) (n : ℕ) :
    findPeaksThreshold (List.replicate n c) = [] := by
  unfold findPeaksThreshold
  rw [List.filter_eq_nil_iff]
  intro i hi
  rw [List.mem_range, List.length_replicate] at hi
  simp only [List.length_replicate, Bool.and_eq_true, decide_eq_true_eq, not_and]
  intro h1 _
  obtain ⟨⟨⟨h2, h3⟩, _⟩, h4⟩ := h1
  have hl : (List.replicate n c).getD (i - 1) 0 = c := getD_replicate (by omega)
  have hm : (List.replicate n c).getD i 0 = c := getD_replicate (by omega)
  rw [hl, hm] at h4
  exact absurd h4 (lt_irrefl c)

/-! ## Heart rate from PPG, scipy method
(src/examples/13_clean_display.py, `calculate_heart_rate_from_ppg`)

This path calls `scipy.signal` routines, which are external library code;
they are modelled here from scipy's reference implementation. The
Butterworth filter `butter`/`filtfilt` is floating-point IIR filtering
with no exact rational counterpart, so `calculate_heart_rate_from_ppg`
takes the composed filter as an opaque parameter; every theorem about it
below holds for an arbitrary filter. -/

/-- End of the plateau of value `v` starting at `j`: the first index
`j' ≥ j` with `j' ≥ x.length - 1` or `x[j'] ≠ v` (the inner `while` of
scipy's `_local_maxima_1d`). The loop is run on explicit fuel so that it
computes by structural recursion; each iteration advances `j` by one and
the loop exits once `j ≥ x.length - 1`, so `x.length` fuel always
suffices. -/
def plateauEnd (x : List ℚ) (v : ℚ) : ℕ → ℕ → ℕ
  | 0, j => j
  | fuel + 1, j =>
      if j < x.length - 1 ∧ x.getD j 0 = v then plateauEnd x v fuel (j + 1)
      else j

theorem plateauEnd_ge (x : List ℚ) (v : ℚ) (fuel j : ℕ) :
    j ≤ plateauEnd x v fuel j := by
  induction fuel generalizing j with
  | zero => exact Nat.le_refl j
  | succ fuel ih =>
    rw [plateauEnd]
    split
    · exact Nat.le_trans (Nat.le_succ j) (ih (j + 1))
    · exact Nat.le_refl j

/-- scipy's `_local_maxima_1d` main loop from index `i`: a sample opening
a plateau that is higher than both the sample before it and the sample
after the plateau contributes the plateau's midpoint. Fuelled like
`plateauEnd`: the scan index grows by at least one per iteration and the
loop exits once it reaches `x.length - 1`, so `x.length` fuel always
suffices. -/
def localMaximaAux (x : List ℚ) : ℕ → ℕ → List ℕ
  | 0, _ => []
  | fuel + 1, i =>
      if i < x.length - 1 then
        if x.getD (i - 1) 0 < x.getD i 0 then
          let ia := plateauEnd x (x.getD i 0) x.length (i + 1)
          if x.getD ia 0 < x.getD i 0 then
            (i + ia - 1) / 2 :: localMaximaAux x fuel (ia + 1)
          else localMaximaAux x fuel (i + 1)
        else localMaximaAux x fuel (i + 1)
      else []

/-- All local maxima of `x`, scanned from index 1 as scipy does. -/
def localMaxima (x : List ℚ) : List ℕ := localMaximaAux x x.length 1

/-- One round of scipy's `_select_by_peak_distance`: if candidate `j` is
still kept when its (height-ordered) turn comes, discard every other
candidate whose sample position is within `distance` of `j`'s position.
(The C implementation's two early-exit scans visit exactly this set of
candidates because the position list is sorted.) -/
def distanceStep (pos : List ℕ) (distance : ℕ) (keep : ℕ → Bool) (j : ℕ) :
    ℕ → Bool :=
  if keep j then
    fun k =>
      if k ≠ j ∧ |(pos.getD k 0 : ℤ) - (pos.getD j 0 : ℤ)| < (distance : ℤ)
      then false else keep k
  else keep

/-- scipy's `_select_by_peak_distance`: starting from an all-true keep
mask, process the candidates in priority order. -/
def selectByPeakDistance (pos : List ℕ) (order : List ℕ) (distance : ℕ) :
    ℕ → Bool :=
  order.foldl (distanceStep pos distance) fun _ => true

/-- Modelled from `scipy.signal.find_peaks(x, distance=d)`: local plateau
maxima, thinned so that a candidate surviving its height-ordered turn
removes all other candidates within `d` samples; survivors are returned in
position order. -/
def find_peaks (x : List ℚ) (distance : ℕ) : List ℕ :=
  let pos := localMaxima x
  let order := (List.range pos.length).insertionSort fun i j =>
    x.getD (pos.getD j 0) 0 ≤ x.getD (pos.getD i 0) 0
  let keep := selectByPeakDistance pos order distance
  ((List.range pos.length).filter fun i => keep i).map fun i => pos.getD i 0

/-- `calculate_heart_rate_from_ppg` of 13_clean_display.py (lines 44–70),
with the `butter`/`filtfilt` bandpass stage abstracted as `filtfilt`:
reject windows under 128 samples, find peaks at least 32 samples apart on
the filtered signal, and accept `60 / mean(intervals)` only strictly
inside 40–180 BPM. -/
def calculate_heart_rate_from_ppg (filtfilt : List ℚ → List ℚ)
    (ppg_data : List ℚ) : Option ℚ :=
  if ppg_data.length < 128 then none
  else
    let filtered := filtfilt ppg_data
    let peaks := find_peaks filtered 32
    if 1 < peaks.length then
      let hr := 60 / meanQ (intervalsSec peaks)
      if 40 < hr ∧ hr < 180 then some hr else none
    else none

theorem distanceStep_le (pos : List ℕ) (d : ℕ) (keep : ℕ → Bool) (j i : ℕ)
    (h : distanceStep pos d keep j i = true) : keep i = true := by
  unfold distanceStep at h
  by_cases hj : keep j
  · rw [if_pos hj] at h
    by_cases hc : i ≠ j ∧ |(pos.getD i 0 : ℤ) - (pos.getD j 0 : ℤ)| < (d : ℤ)
    · rw [if_pos hc] at h
      exact absurd h (by simp)
    · rwa [if_neg hc] at h
  · rwa [if_neg hj] at h

theorem foldl_distanceStep_le (pos : List ℕ) (d : ℕ) (order : List ℕ)
    (keep : ℕ → Bool) (i : ℕ)
    (h : order.foldl (distanceStep pos d) keep i = true) : keep i = true := by
  induction order generalizing keep with
  | nil => exact h
  | cons j rest ih => exact distanceStep_le pos d keep j i (ih _ h)

theorem distanceStep_kill (pos : List ℕ) (d : ℕ) (keep : ℕ → Bool) (j i : ℕ)
    (hj : keep j = true) (hne : i ≠ j)
    (hclose : |(pos.getD i 0 : ℤ) - (pos.getD j 0 : ℤ)| < (d : ℤ)) :
    distanceStep pos d keep j i = false := by
  unfold distanceStep
  rw [if_pos hj, if_pos ⟨hne, hclose⟩]

/-- Candidates surviving distance selection are pairwise at least
`distance` apart, provided every candidate index gets a processing turn. -/
theorem selectByPeakDistance_spacing (pos : List ℕ) (order : List ℕ) (d : ℕ)
    (i k : ℕ) (hi : i ∈ order)
    (hki : selectByPeakDistance pos order d i = true)
    (hkk : selectByPeakDistance pos order d k = true)
    (hne : k ≠ i) :
    (d : ℤ) ≤ |(pos.getD k 0 : ℤ) - (pos.getD i 0 : ℤ)| := by
  by_contra hclose
  push_neg at hclose
  obtain ⟨l1, l2, rfl⟩ := List.append_of_mem hi
  unfold selectByPeakDistance at hki hkk
  rw [List.foldl_append] at hki hkk
  simp only [List.foldl_cons] at hki hkk
  set keep1 := l1.foldl (distanceStep pos d) (fun _ => true) with hk1
  have hstep_i : distanceStep pos d keep1 i i = true :=
    foldl_distanceStep_le pos d l2 _ i hki
  have hkeep1_i : keep1 i = true := distanceStep_le pos d keep1 i i hstep_i
  have hkill : distanceStep pos d keep1 i k = false :=
    distanceStep_kill pos d keep1 i k hkeep1_i hne hclose
  have hkt := foldl_distanceStep_le pos d l2 _ k hkk
  rw [hkill] at hkt
  exact Bool.false_ne_true hkt

/-- Two distinct peaks returned by the scipy peak finder are at least
`distance` samples apart. -/
theorem find_peaks_spacing (x : List ℚ) (d : ℕ) (p q : ℕ)
    (hp : p ∈ find_peaks x d) (hq : q ∈ find_peaks x d) (hne : p ≠ q) :
    (d : ℤ) ≤ |(p : ℤ) - (q : ℤ)| := by
  simp only [find_peaks, List.mem_map, List.mem_filter, List.mem_range] at hp hq
  obtain ⟨ip, ⟨hip_lt, hip_keep⟩, rfl⟩ := hp
  obtain ⟨iq, ⟨hiq_lt, hiq_keep⟩, rfl⟩ := hq
  have hiq_mem :
      iq ∈ (List.range (localMaxima x).length).insertionSort fun i j =>
        x.getD ((localMaxima x).getD j 0) 0 ≤ x.getD ((localMaxima x).getD i 0) 0 := by
    rw [List.Perm.mem_iff (List.perm_insertionSort _ _), List.mem_range]
    exact hiq_lt
  have hne' : ip ≠ iq := fun h => hne (by rw [h])
  exact selectByPeakDistance_spacing (localMaxima x) _ d iq ip hiq_mem
    hiq_keep hip_keep hne'

/-- A synthetic 256-sample PPG window with a spike every 64 samples: a
heart beat exactly once per second at 64 Hz, i.e. 60 BPM. -/
def ppgTestWindow : List ℚ :=
  (List.range 256).map fun i => if i % 64 = 32 then 100 else 0

/-- A synthetic filtered signal with spikes at samples 1 and 40. -/
def ppgSpikes : List ℚ :=
  (List.range 60).map fun i => if i = 1 ∨ i = 40 then 1 else 0

theorem calcHRFromPPG_replicate (c : ℚ) (n : ℕ) :
    calcHRFromPPG (List.replicate n c) = none := by
  simp only [calcHRFromPPG]
  split
  · have hlast : lastN 256 (List.replicate n c) =
        List.replicate (n - ((List.replicate n c).length - 256)) c := by
      unfold lastN
      rw [List.length_replicate, List.drop_replicate]
    rw [hlast, findPeaksThreshold_replicate]
    norm_num
  · rfl

/-! ## Rolling sample windows
(src/examples/12_simple_metrics.py line 37, 13_clean_display.py line 37,
06_viz_qasync.py `handle_notification` lines 121–127) -/

/-- `collections.deque(maxlen).extend`: append the batch, then keep only
the newest `maxlen` elements (oldest evicted first). Models `ppg_history =
deque(maxlen=320)` and `ppg_buffer = deque(maxlen=320)`. -/
def dequeExtend {α : Type} (maxlen : ℕ) (buf new : List α) : List α :=
  lastN maxlen (buf ++ new)

/-- The EEG buffer update in `handle_notification` (06_viz_qasync lines
124–127): extend with the decoded samples, then truncate to the last
`max_points` only when the buffer has grown beyond it. -/
def eegBufferAppend (max_points : ℕ) (buf samples : List ℚ) : List ℚ :=
  let b := buf ++ samples
  if max_points < b.length then lastN max_points b else b

/-- The whole-notification buffer update: each decoded channel present in
`eeg_buffers` is extended and truncated; other channels are ignored. -/
def handleNotificationBuffers (max_points : ℕ)
    (buffers : List (String × List ℚ)) (decoded : List (String × List ℚ)) :
    List (String × List ℚ) :=
  decoded.foldl
    (fun bufs cs =>
      bufs.map fun ch =>
        if ch.1 = cs.1 then (ch.1, eegBufferAppend max_points ch.2 cs.2)
        else ch)
    buffers

theorem lastN_length_le {α : Type} (n : ℕ) (l : List α) :
    (lastN n l).length ≤ n := by
  unfold lastN
  rw [List.length_drop]
  omega

theorem lastN_suffix {α : Type} (n : ℕ) (l : List α) : (lastN n l).IsSuffix l :=
  List.drop_suffix _ _

/-- After the truncating update the buffer never exceeds `max_points`,
whatever its previous length. -/
theorem eegBufferAppend_length_le (mp : ℕ) (buf samples : List ℚ) :
    (eegBufferAppend mp buf samples).length ≤ mp := by
  simp only [eegBufferAppend]
  split
  next => exact lastN_length_le _ _
  next h =>
    rw [not_lt] at h
    exact h

/-! ## Device configuration (src/muse_config.py)

`MuseDeviceConfig` keeps a dict of known devices keyed by address and a
settings dict holding per-buffer sizes. Python dicts are embedded as
association lists whose keys are unique (`Nodup`), with assignment
replacing the existing binding in place or appending a new one, and
iteration in list order. The `save_config` file write performed after
each mutation is I/O outside the model. -/

/-- The `MuseDevice` dataclass. -/
structure MuseDevice where
  name : String
  address : String
  rssi : ℤ
  model : String
  last_seen : String
  preferred : Bool
  deriving DecidableEq

/-- Python dict assignment `d[k] = v`: replace the binding of `k` in
place, or append a new binding at the end. -/
def dictSet {β : Type} (d : List (String × β)) (k : String) (v : β) :
    List (String × β) :=
  match d with
  | [] => [(k, v)]
  | p :: rest => if p.1 = k then (k, v) :: rest else p :: dictSet rest k v

/-- `DEFAULT_BUFFER_SIZES` (muse_config.py lines 56–61). -/
def DEFAULT_BUFFER_SIZES : List (String × ℤ) :=
  [("eeg_window", 2560), ("ppg_window", 640), ("imu_window", 520),
   ("heart_rate_window", 120)]

/-- `MuseDeviceConfig.get_buffer_size` (lines 221–231):
`self.settings['buffer_sizes'].get(buffer_type, 1000)`. -/
def get_buffer_size (buffer_sizes : List (String × ℤ))
    (buffer_type : String) : ℤ :=
  (buffer_sizes.lookup buffer_type).getD 1000

/-- `MuseDeviceConfig.set_buffer_size` (lines 233–250): reject sizes
outside 100–10000 leaving the table unchanged, otherwise store the size;
returns the success flag and the resulting table. -/
def set_buffer_size (buffer_sizes : List (String × ℤ))
    (buffer_type : String) (size : ℤ) : Bool × List (String × ℤ) :=
  if size < 100 ∨ 10000 < size then (false, buffer_sizes)
  else (true, dictSet buffer_sizes buffer_type size)

theorem lookup_dictSet {β : Type} (d : List (String × β)) (k : String)
    (v : β) : (dictSet d k v).lookup k = some v := by
  induction d with
  | nil => simp [dictSet, List.lookup]
  | cons p rest ih =>
    rw [dictSet]
    split
    · simp [List.lookup]
    next h =>
      rw [List.lookup]
      have : (k == p.1) = false := by
        simp only [beq_eq_false_iff_ne, ne_eq]
        exact fun hk => h hk.symm
      rw [this]
      exact ih

/-- Clearing pass of `set_preferred_device` (lines 199–201): set every
device's `preferred` flag to `False`. -/
def clearPreferred (devices : List (String × MuseDevice)) :
    List (String × MuseDevice) :=
  devices.map fun p => (p.1, { p.2 with preferred := false })

/-- In-place mutation of one dict value (`self.devices[address].preferred
= True`): apply `f` to the binding of `k`, if present. -/
def dictModify (d : List (String × MuseDevice)) (k : String)
    (f : MuseDevice → MuseDevice) : List (String × MuseDevice) :=
  match d with
  | [] => []
  | p :: rest =>
      if p.1 = k then (p.1, f p.2) :: rest else p :: dictModify rest k f

/-- `MuseDeviceConfig.set_preferred_device` (lines 186–207): fail on an
unknown address; otherwise clear every preferred flag and set the chosen
device's flag. Returns the success flag and the resulting device dict. -/
def set_preferred_device (devices : List (String × MuseDevice))
    (address : String) : Bool × List (String × MuseDevice) :=
  if (devices.lookup address).isSome then
    (true,
      dictModify (clearPreferred devices) address
        fun d => { d with preferred := true })
  else (false, devices)

/-- `MuseDeviceConfig.get_preferred_device` (lines 209–219): the first
device whose `preferred` flag is set, else `None`. -/
def get_preferred_device (devices : List (String × MuseDevice)) :
    Option MuseDevice :=
  (devices.find? fun p => p.2.preferred).map fun p => p.2

/-- A sample known device. -/
def museA : MuseDevice :=
  { name := "Muse-A", address := "AA", rssi := -60, model := "Muse S",
    last_seen := "", preferred := false }

/-- A second sample device, currently marked preferred. -/
def museB : MuseDevice :=
  { name := "Muse-B", address := "BB", rssi := -70, model := "Muse 2",
    last_seen := "", preferred := true }

/-- A sample device dict. -/
def sampleDevices : List (String × MuseDevice) :=
  [("AA", museA), ("BB", museB)]

/-- After clearing all flags and setting the one at `address`, the flag
of each device records exactly whether it sits at `address`, and the scan
for a preferred device returns the device stored at `address` with its
flag set. -/
theorem preferred_update (devices : List (String × MuseDevice))
    (address : String) (d₀ : MuseDevice)
    (hnd : (devices.map Prod.fst).Nodup)
    (hl : devices.lookup address = some d₀) :
    (∀ p ∈ dictModify (clearPreferred devices) address
        (fun d => { d with preferred := true }),
      p.2.preferred = true ↔ p.1 = address) ∧
    get_preferred_device (dictModify (clearPreferred devices) address
        (fun d => { d with preferred := true })) =
      some { d₀ with preferred := true } := by
  induction devices with
  | nil => simp [List.lookup] at hl
  | cons q rest ih =>
    obtain ⟨k, d⟩ := q
    rw [List.map_cons, List.nodup_cons] at hnd
    obtain ⟨hk_notin, hnd_rest⟩ := hnd
    simp only [clearPreferred, List.map_cons]
    by_cases hk : address = k
    · have hq : d = d₀ := by
        simp [List.lookup, hk] at hl
        exact hl
      rw [dictModify, if_pos hk.symm]
      constructor
      · intro p hp
        rcases List.mem_cons.mp hp with hhead | htail
        · subst hhead
          simp [hk]
        · obtain ⟨r, hr, rfl⟩ := List.mem_map.mp htail
          show (false = true) ↔ (r.1 = address)
          constructor
          · intro hfalse
            exact absurd hfalse Bool.false_ne_true
          · intro haddr
            have hmem : r.1 ∈ List.map Prod.fst rest :=
              List.mem_map_of_mem Prod.fst hr
            rw [haddr, hk] at hmem
            exact absurd hmem hk_notin
      · rw [get_preferred_device, List.find?_cons_of_pos _ (by rfl)]
        subst hq
        rfl
    · have hbeq : (address == k) = false := by
        simp only [beq_eq_false_iff_ne, ne_eq]
        exact hk
      have hl_rest : rest.lookup address = some d₀ := by
        simp only [List.lookup, hbeq] at hl
        exact hl
      have ihr := ih hnd_rest hl_rest
      rw [dictModify, if_neg fun h => hk h.symm]
      constructor
      · intro p hp
        rcases List.mem_cons.mp hp with hhead | htail
        · subst hhead
          show (false = true) ↔ (k = address)
          constructor
          · intro hfalse
            exact absurd hfalse Bool.false_ne_true
          · intro haddr
            exact absurd haddr.symm hk
        · exact ihr.1 p htail
      · rw [get_preferred_device, List.find?_cons_of_neg _ (by simp),
          ← get_preferred_device]
        exact ihr.2

/-! ## Binary Stream Codec (spec sections 3 and 4.3)

The codec module itself is not among the repository files under src/
(only the examples and configuration modules are present), so the codec
is modelled from the spec. -/

/-- Modelled from the spec: a `StreamRecord`, the on-disk unit of section
3 — `{timestamp: f64 seconds since recording start, packet_type: u8,
length: u32, payload: bytes}` — with the timestamp embedded as an exact
rational number of seconds and the length field derived from the
payload. -/
structure StreamRecord where
  timestamp : ℚ
  packet_type : ℕ
  payload : List ℕ
  deriving DecidableEq

/-- Little-endian encoding of `n` into `w` bytes. -/
def encodeNatLE : ℕ → ℕ → List ℕ
  | 0, _ => []
  | w + 1, n => n % 256 :: encodeNatLE w (n / 256)

/-- Little-endian byte decoding. -/
def decodeNatLE : List ℕ → ℕ
  | [] => 0
  | b :: bs => b + 256 * decodeNatLE bs

/-- A record timestamp quantized to whole milliseconds for storage (the
spec promises only millisecond precision for stored timestamps). -/
def tsMillis (ts : ℚ) : ℕ := (round (ts * 1000)).toNat

/-- Modelled from the spec: serialization of one `StreamRecord` by the
codec write path (section 4.3). The spec fixes the record fields and
their ranges (u8 type, u32 length, millisecond-precise f64 timestamp) but
not the byte layout; the layout here is the timestamp in milliseconds as
8 bytes little-endian, the packet-type byte, the payload length as 4
bytes little-endian, then the payload bytes. -/
def encodeRecord (r : StreamRecord) : List ℕ :=
  encodeNatLE 8 (tsMillis r.timestamp) ++ [r.packet_type] ++
    encodeNatLE 4 r.payload.length ++ r.payload

/-- Modelled from the spec: a whole recording session — records appended
sequentially to the file, nothing else in it. -/
def writeStream (records : List StreamRecord) : List ℕ :=
  (records.map encodeRecord).flatten

/-- Modelled from the spec: the read path `read_packets` (section 4.3) —
records parsed sequentially in file order; a truncated trailing record
(fewer bytes than the 13-byte header or than the announced payload
length) is skipped, ending the sequence without affecting prior records.
The parse loop runs on explicit fuel so that it computes by structural
recursion; every iteration consumes at least the 13 header bytes, so
`bytes.length` fuel always suffices. -/
def readStreamAux : ℕ → List ℕ → List StreamRecord
  | 0, _ => []
  | fuel + 1, bytes =>
      if 13 ≤ bytes.length then
        let tsm := decodeNatLE (bytes.take 8)
        let ptype := bytes.getD 8 0
        let plen := decodeNatLE ((bytes.drop 9).take 4)
        let rest := bytes.drop 13
        if plen ≤ rest.length then
          { timestamp := (tsm : ℚ) / 1000, packet_type := ptype,
            payload := rest.take plen } :: readStreamAux fuel (rest.drop plen)
        else []
      else []

/-- Modelled from the spec: read a recorded file back as its sequence of
`StreamRecord`s. -/
def readStream (bytes : List ℕ) : List StreamRecord :=
  readStreamAux bytes.length bytes

theorem length_encodeNatLE (w n : ℕ) : (encodeNatLE w n).length = w := by
  induction w generalizing n with
  | zero => rfl
  | succ w ih => simp [encodeNatLE, ih]

theorem decode_encodeNatLE (w n : ℕ) (h : n < 256 ^ w) :
    decodeNatLE (encodeNatLE w n) = n := by
  induction w generalizing n with
  | zero =>
    rw [pow_zero] at h
    interval_cases n
    rfl
  | succ w ih =>
    rw [encodeNatLE, decodeNatLE, ih (n / 256) (by
      rw [pow_succ, mul_comm] at h
      exact Nat.div_lt_of_lt_mul h)]
    omega

/-- Parsing one encoded record off the front of a byte stream recovers
its fields (timestamp at millisecond granularity) and leaves the rest. -/
theorem readStreamAux_encodeRecord (r : StreamRecord) (tail : List ℕ)
    (f : ℕ) (h2 : r.payload.length < 2 ^ 32)
    (h3 : tsMillis r.timestamp < 2 ^ 64) :
    readStreamAux (f + 1) (encodeRecord r ++ tail) =
      { timestamp := (tsMillis r.timestamp : ℚ) / 1000,
        packet_type := r.packet_type, payload := r.payload } ::
        readStreamAux f tail := by
  have he8 : (encodeNatLE 8 (tsMillis r.timestamp)).length = 8 :=
    length_encodeNatLE _ _
  have he4 : (encodeNatLE 4 r.payload.length).length = 4 :=
    length_encodeNatLE _ _
  have hb : encodeRecord r ++ tail =
      encodeNatLE 8 (tsMillis r.timestamp) ++
        (r.packet_type ::
          (encodeNatLE 4 r.payload.length ++ (r.payload ++ tail))) := by
    simp [encodeRecord]
  have htake8 : (encodeRecord r ++ tail).take 8 =
      encodeNatLE 8 (tsMillis r.timestamp) := by
    rw [hb]
    exact List.take_left' he8
  have hdrop8 : (encodeRecord r ++ tail).drop 8 =
      r.packet_type ::
        (encodeNatLE 4 r.payload.length ++ (r.payload ++ tail)) := by
    rw [hb]
    exact List.drop_left' he8
  have hdrop9 : (encodeRecord r ++ tail).drop 9 =
      encodeNatLE 4 r.payload.length ++ (r.payload ++ tail) := by
    rw [show (9 : ℕ) = 8 + 1 from rfl, ← List.drop_drop, hdrop8]
    rfl
  have htake4 : ((encodeRecord r ++ tail).drop 9).take 4 =
      encodeNatLE 4 r.payload.length := by
    rw [hdrop9]
    exact List.take_left' he4
  have hdrop13 : (encodeRecord r ++ tail).drop 13 = r.payload ++ tail := by
    rw [show (13 : ℕ) = 9 + 4 from rfl, ← List.drop_drop, hdrop9]
    exact List.drop_left' he4
  have hgetD : (encodeRecord r ++ tail).getD 8 0 = r.packet_type := by
    rw [List.getD_eq_getElem?_getD, hb,
      List.getElem?_append_right (le_of_eq he8), he8]
    rfl
  have hlen : 13 ≤ (encodeRecord r ++ tail).length := by
    rw [hb]
    simp only [List.length_append, List.length_cons, he8, he4]
    omega
  rw [readStreamAux]
  simp only [htake8, hgetD, htake4, hdrop13,
    decode_encodeNatLE 8 _ h3, decode_encodeNatLE 4 _ h2]
  rw [if_pos hlen,
    if_pos (by simp only [List.length_append]; exact Nat.le_add_right _ _),
    List.take_left, List.drop_left]

/-- Reading back an encoded record sequence recovers every record in
order, byte-identical apart from timestamp quantization, provided enough
fuel for the whole file. -/
theorem readStreamAux_writeStream (records : List StreamRecord) (fuel : ℕ)
    (hv : ∀ r ∈ records,
      r.payload.length < 2 ^ 32 ∧ tsMillis r.timestamp < 2 ^ 64)
    (hf : records.length ≤ fuel) :
    readStreamAux fuel (writeStream records) =
      records.map fun r =>
        { r with timestamp := (tsMillis r.timestamp : ℚ) / 1000 } := by
  induction records generalizing fuel with
  | nil =>
    cases fuel with
    | zero => rfl
    | succ f => simp [writeStream, readStreamAux]
  | cons r rs ih =>
    obtain ⟨fuel, rfl⟩ : ∃ f, fuel = f + 1 := by
      cases fuel with
      | zero => exact absurd hf (by simp)
      | succ f => exact ⟨f, rfl⟩
    have hr := hv r (List.mem_cons_self r rs)
    have hws : writeStream (r :: rs) = encodeRecord r ++ writeStream rs := by
      simp [writeStream]
    rw [hws, readStreamAux_encodeRecord r _ fuel hr.1 hr.2,
      ih fuel (fun q hq => hv q (List.mem_cons_of_mem r hq)) (by
        simp only [List.length_cons] at hf
        omega)]
    rfl

theorem length_le_length_writeStream (records : List StreamRecord) :
    records.length ≤ (writeStream records).length := by
  induction records with
  | nil => simp [writeStream]
  | cons r rs ih =>
    have hws : writeStream (r :: rs) = encodeRecord r ++ writeStream rs := by
      simp [writeStream]
    have hr : (encodeRecord r).length = 13 + r.payload.length := by
      simp only [encodeRecord, List.length_append, List.length_cons,
        List.length_nil, length_encodeNatLE]
    rw [hws, List.length_append, List.length_cons, hr]
    omega

/-- Storing a nonnegative timestamp as rounded milliseconds loses at most
half a millisecond. -/
theorem tsMillis_precision (ts : ℚ) (h : 0 ≤ ts) :
    |(tsMillis ts : ℚ) / 1000 - ts| ≤ 1 / 1000 := by
  have hy : (0 : ℚ) ≤ ts * 1000 + 1 / 2 := by linarith
  have h0 : (0 : ℤ) ≤ round (ts * 1000) := by
    rw [round_eq]
    exact Int.floor_nonneg.mpr hy
  have hcast : ((tsMillis ts : ℕ) : ℚ) = ((round (ts * 1000) : ℤ) : ℚ) := by
    rw [tsMillis]
    exact_mod_cast Int.toNat_of_nonneg h0
  have hround : |((round (ts * 1000) : ℤ) : ℚ) - ts * 1000| ≤ 1 / 2 := by
    rw [abs_sub_comm]
    exact abs_sub_round (ts * 1000)
  have hsplit : (tsMillis ts : ℚ) / 1000 - ts =
      (((round (ts * 1000) : ℤ) : ℚ) - ts * 1000) / 1000 := by
    rw [hcast]
    ring
  rw [hsplit, abs_div, abs_of_pos (by norm_num : (0 : ℚ) < 1000)]
  linarith

/-- The caller obligation of the codec write contract: timestamps are
non-decreasing along the record sequence. -/
def timestampsMonotone (records : List StreamRecord) : Bool :=
  (records.zip records.tail).all fun p =>
    decide (p.1.timestamp ≤ p.2.timestamp)

/-- A sample two-record session. -/
def sampleRecords : List StreamRecord :=
  [ { timestamp := 0, packet_type := 0xdf, payload := [1, 2, 3] },
    { timestamp := 3 / 2, packet_type := 0xf4, payload := [] } ]

end Amused

/-- **C4.** Every entry of the control-command table is framed as one
length byte, the ASCII characters of the command name, then the terminator
`0x0a`, the length byte counting the bytes that follow it (ASCII count plus
one); this holds for all six commands `v6`, `s`, `h`, `p1034`, `dc001`,
`L1`. -/
theorem commands_length_prefixed_ascii_framed :
    ∀ name ∈ ["v6", "s", "h", "p1034", "dc001", "L1"],
      Amused.COMMANDS name =
        ((Amused.asciiOf name).length + 1) ::
          (Amused.asciiOf name ++ [0x0a]) := by decide

/-- **C4 witness.** The framing equation evaluated at the concrete command
`p1034`. -/
theorem commands_length_prefixed_ascii_framed_witness :
    Amused.COMMANDS "p1034" =
      ((Amused.asciiOf "p1034").length + 1) ::
        (Amused.asciiOf "p1034" ++ [0x0a]) :=
  commands_length_prefixed_ascii_framed "p1034" (by decide)

/-- **C1.** During arm/initialization, the commands written to the control
characteristic are exactly halt, preset-selection, stream-start twice
consecutively, then keep-alive, in that order, with a positive settle delay
after the halt, after the preset, and between the stream-start pair and the
keep-alive. -/
theorem arm_sequence_writes :
    Amused.writesTo Amused.CONTROL_CHAR_UUID Amused.connectAndStreamTrace =
      [Amused.COMMANDS "h", Amused.COMMANDS "p1034", Amused.COMMANDS "dc001",
       Amused.COMMANDS "dc001", Amused.COMMANDS "L1"] ∧
    ∃ s₁ s₂ s₃ s₄ : ℚ, 0 < s₁ ∧ 0 < s₂ ∧ 0 < s₃ ∧ 0 < s₄ ∧
      Amused.connectAndStreamTrace =
        [ Amused.BLEEvent.write Amused.CONTROL_CHAR_UUID (Amused.COMMANDS "h"),
          Amused.BLEEvent.sleep s₁,
          Amused.BLEEvent.write Amused.CONTROL_CHAR_UUID (Amused.COMMANDS "p1034"),
          Amused.BLEEvent.sleep s₂,
          Amused.BLEEvent.write Amused.CONTROL_CHAR_UUID (Amused.COMMANDS "dc001"),
          Amused.BLEEvent.sleep s₃,
          Amused.BLEEvent.write Amused.CONTROL_CHAR_UUID (Amused.COMMANDS "dc001"),
          Amused.BLEEvent.sleep s₄,
          Amused.BLEEvent.write Amused.CONTROL_CHAR_UUID (Amused.COMMANDS "L1"),
          Amused.BLEEvent.startNotify Amused.SENSOR_CHAR_UUID ] := by
  refine ⟨by decide, 1/2, 1/2, 1/5, 1/5, by norm_num, by norm_num, by norm_num,
    by norm_num, rfl⟩

/-- **C6.** A constant (flat-line) PPG window yields no estimate: the
threshold detector finds no peaks (no sample strictly exceeds the mean and
both neighbors), so fewer than the required number of peaks exist and no
heart-rate value is produced. -/
theorem flat_line_no_estimate (c : ℚ) (n : ℕ) :
    Amused.findPeaksThreshold (List.replicate n c) = [] ∧
    Amused.calcHRFromPPG (List.replicate n c) = none :=
  ⟨Amused.findPeaksThreshold_replicate c n, Amused.calcHRFromPPG_replicate c n⟩

/-- **C7.** Any PPG window with fewer than 128 samples yields no estimate,
regardless of contents: `calculate_heart_rate_from_ppg` (13_clean_display)
returns `None` for any bandpass filter, and the fallback branch of
`update_display` (12_simple_metrics) skips the computation. -/
theorem short_window_no_estimate :
    (∀ (filt : List ℚ → List ℚ) (ppg : List ℚ), ppg.length < 128 →
      Amused.calculate_heart_rate_from_ppg filt ppg = none) ∧
    (∀ hist : List ℚ, hist.length < 128 → Amused.calcHRFromPPG hist = none) := by
  constructor
  · intro filt ppg h
    unfold Amused.calculate_heart_rate_from_ppg
    rw [if_pos h]
  · intro hist h
    unfold Amused.calcHRFromPPG
    rw [if_neg (by omega)]

/-- **C7 witness.** Both extractors on the one-sample window `[0]`. -/
theorem short_window_no_estimate_witness :
    Amused.calculate_heart_rate_from_ppg id [0] = none ∧
    Amused.calcHRFromPPG [0] = none :=
  ⟨short_window_no_estimate.1 id [0] (by decide),
   short_window_no_estimate.2 [0] (by decide)⟩

/-- **C2.** Whenever more than two peaks are detected on a sufficiently
full window, the heart-rate estimate is `60 / mean(inter-peak interval in
seconds)` with intervals the peak index differences over the 64 Hz rate,
and a value is returned only when strictly inside 40–180 BPM — otherwise
no estimate is produced; this holds for the threshold path of
`update_display` (12_simple_metrics) and, for any bandpass filter, for
`calculate_heart_rate_from_ppg` (13_clean_display). -/
theorem hr_formula_and_range_gate :
    (∀ hist : List ℚ, 128 ≤ hist.length →
      2 < (Amused.findPeaksThreshold (Amused.lastN 256 hist)).length →
      Amused.calcHRFromPPG hist =
        if 40 < 60 / Amused.meanQ
              (Amused.intervalsSec (Amused.findPeaksThreshold (Amused.lastN 256 hist))) ∧
           60 / Amused.meanQ
              (Amused.intervalsSec (Amused.findPeaksThreshold (Amused.lastN 256 hist))) < 180
        then some (60 / Amused.meanQ
              (Amused.intervalsSec (Amused.findPeaksThreshold (Amused.lastN 256 hist))))
        else none) ∧
    (∀ (filt : List ℚ → List ℚ) (ppg : List ℚ), ¬ ppg.length < 128 →
      2 < (Amused.find_peaks (filt ppg) 32).length →
      Amused.calculate_heart_rate_from_ppg filt ppg =
        if 40 < 60 / Amused.meanQ (Amused.intervalsSec (Amused.find_peaks (filt ppg) 32)) ∧
           60 / Amused.meanQ (Amused.intervalsSec (Amused.find_peaks (filt ppg) 32)) < 180
        then some (60 / Amused.meanQ (Amused.intervalsSec (Amused.find_peaks (filt ppg) 32)))
        else none) := by
  constructor
  · intro hist h1 h2
    simp only [Amused.calcHRFromPPG]
    rw [if_pos h1, if_pos h2]
  · intro filt ppg h1 h2
    simp only [Amused.calculate_heart_rate_from_ppg]
    rw [if_neg h1, if_pos (by omega : 1 < (Amused.find_peaks (filt ppg) 32).length)]

set_option maxRecDepth 100000 in
set_option maxHeartbeats 1000000 in
attribute [local semireducible] Rat.add Rat.mul Rat.inv Rat.sub in
/-- **C2 witness.** On a 256-sample window with a spike every 64 samples,
four peaks are found and the computed estimate is exactly 60 BPM. -/
theorem hr_formula_and_range_gate_witness :
    Amused.calcHRFromPPG Amused.ppgTestWindow = some 60 := by
  have h := hr_formula_and_range_gate.1 Amused.ppgTestWindow (by decide) (by decide)
  rw [h]
  decide

attribute [local semireducible] Rat.add Rat.mul Rat.inv Rat.sub in
/-- **C5 counterexample.** The threshold peak detector of
`update_display` (12_simple_metrics) enforces no minimum inter-peak
spacing: on `[0, 10, 0, 10, 0]` it accepts peaks at indices 1 and 3, only
2 samples apart — closer than the ≈21 samples corresponding to 180 BPM at
64 Hz — and that interval implies a rate of 1920 BPM. -/
theorem min_spacing_counterexample :
    Amused.findPeaksThreshold [0, 10, 0, 10, 0] = [1, 3] ∧
    3 - 1 < 21 ∧
    (180 : ℚ) < 60 / (((3 : ℚ) - 1) / 64) := by decide

set_option maxRecDepth 100000 in
/-- **C5 amended.** The scipy-based detector of
`calculate_heart_rate_from_ppg` (13_clean_display) does enforce a minimum
spacing: any two distinct accepted peaks are at least 32 samples (0.5 s at
64 Hz) apart, so no detected inter-peak interval can imply a rate above
120 BPM, in particular none above 180. The threshold detector of
12_simple_metrics enforces no minimum spacing; there, rates above 180
implied by close peaks are instead discarded by the 40–180 range gate, so
no produced estimate exceeds 180 BPM. -/
theorem peak_distance_enforced :
    (∀ (x : List ℚ) (p q : ℕ), p ∈ Amused.find_peaks x 32 →
      q ∈ Amused.find_peaks x 32 → p ≠ q →
      (32 : ℤ) ≤ |(p : ℤ) - (q : ℤ)| ∧
        60 / (|(p : ℚ) - (q : ℚ)| / 64) ≤ 120) ∧
    (∀ (hist : List ℚ) (hr : ℚ), Amused.calcHRFromPPG hist = some hr →
      40 < hr ∧ hr < 180) := by
  constructor
  · intro x p q hp hq hne
    have h32 := Amused.find_peaks_spacing x 32 p q hp hq hne
    refine ⟨h32, ?_⟩
    have h32Q : (32 : ℚ) ≤ |(p : ℚ) - (q : ℚ)| := by exact_mod_cast h32
    have hpos : (0 : ℚ) < |(p : ℚ) - (q : ℚ)| / 64 := by linarith
    rw [div_le_iff₀ hpos]
    linarith
  · intro hist hr h
    simp only [Amused.calcHRFromPPG] at h
    split at h
    · split at h
      · split at h
        next hrange =>
          obtain ⟨h1, h2⟩ := hrange
          cases h
          exact ⟨h1, h2⟩
        next => cases h
      · cases h
    · cases h

set_option maxRecDepth 100000 in
set_option maxHeartbeats 1000000 in
attribute [local semireducible] Rat.add Rat.mul Rat.inv Rat.sub in
/-- **C5 amended witness.** The scipy detector keeps the spikes at samples
1 and 40 (39 apart); on the 60 BPM synthetic window the threshold path
produces 60 BPM, inside the gate. -/
theorem peak_distance_enforced_witness :
    ((32 : ℤ) ≤ |(1 : ℤ) - (40 : ℤ)| ∧
      60 / (|((1 : ℕ) : ℚ) - ((40 : ℕ) : ℚ)| / 64) ≤ 120) ∧
    (40 < (60 : ℚ) ∧ (60 : ℚ) < 180) :=
  ⟨peak_distance_enforced.1 Amused.ppgSpikes 1 40 (by decide) (by decide)
      (by decide),
   peak_distance_enforced.2 Amused.ppgTestWindow 60 (by decide)⟩

/-- **C8.** The rolling windows are bounded with oldest-first eviction:
every deque extend leaves at most 320 PPG samples and is a suffix of the
old-plus-new samples; every EEG buffer update leaves at most 2560 points
and is a suffix of the old-plus-new samples; and a whole notification
preserves the bound across all channel buffers. -/
theorem rolling_buffers_bounded :
    (∀ buf new : List ℚ, (Amused.dequeExtend 320 buf new).length ≤ 320 ∧
      (Amused.dequeExtend 320 buf new).IsSuffix (buf ++ new)) ∧
    (∀ buf samples : List ℚ,
      (Amused.eegBufferAppend 2560 buf samples).length ≤ 2560 ∧
      (Amused.eegBufferAppend 2560 buf samples).IsSuffix (buf ++ samples)) ∧
    (∀ (buffers decoded : List (String × List ℚ)),
      (∀ q ∈ buffers, q.2.length ≤ 2560) →
      ∀ p ∈ Amused.handleNotificationBuffers 2560 buffers decoded,
        p.2.length ≤ 2560) := by
  refine ⟨fun buf new => ⟨Amused.lastN_length_le _ _, Amused.lastN_suffix _ _⟩,
    fun buf samples => ⟨Amused.eegBufferAppend_length_le _ _ _, ?_⟩, ?_⟩
  · simp only [Amused.eegBufferAppend]
    split
    · exact Amused.lastN_suffix _ _
    · exact List.suffix_refl _
  · intro buffers decoded
    induction decoded generalizing buffers with
    | nil => intro h p hp; exact h p hp
    | cons cs rest ih =>
      intro h p hp
      refine ih _ ?_ p hp
      intro q hq
      rw [List.mem_map] at hq
      obtain ⟨q₀, hq₀, rfl⟩ := hq
      split
      · exact Amused.eegBufferAppend_length_le _ _ _
      · exact h q₀ hq₀

/-- **C8 witness.** The invariant-preservation part applied to a concrete
one-channel state receiving one batch. -/
theorem rolling_buffers_bounded_witness :
    ∀ p ∈ Amused.handleNotificationBuffers 2560 [("TP9", [(0 : ℚ)])]
        [("TP9", [1, 2])], p.2.length ≤ 2560 :=
  rolling_buffers_bounded.2.2 [("TP9", [(0 : ℚ)])] [("TP9", [1, 2])]
    (by decide)

/-- **C9.** `set_buffer_size` returns `False` and leaves the stored sizes
unchanged when the requested size is below 100 or above 10000; otherwise
it returns `True` and stores the size, so that `get_buffer_size` for that
buffer type afterwards returns exactly the size that was set. -/
theorem set_buffer_size_spec :
    ∀ (sizes : List (String × ℤ)) (btype : String) (size : ℤ),
      ((size < 100 ∨ 10000 < size) →
        Amused.set_buffer_size sizes btype size = (false, sizes)) ∧
      (100 ≤ size → size ≤ 10000 →
        (Amused.set_buffer_size sizes btype size).1 = true ∧
        Amused.get_buffer_size (Amused.set_buffer_size sizes btype size).2
          btype = size) := by
  intro sizes btype size
  constructor
  · intro h
    unfold Amused.set_buffer_size
    rw [if_pos h]
  · intro h1 h2
    unfold Amused.set_buffer_size
    rw [if_neg (by omega)]
    refine ⟨rfl, ?_⟩
    unfold Amused.get_buffer_size
    rw [Amused.lookup_dictSet]
    rfl

/-- **C9 witness.** On the default table: size 50 is rejected without
change, size 1280 is stored and read back. -/
theorem set_buffer_size_spec_witness :
    Amused.set_buffer_size Amused.DEFAULT_BUFFER_SIZES "eeg_window" 50 =
      (false, Amused.DEFAULT_BUFFER_SIZES) ∧
    ((Amused.set_buffer_size Amused.DEFAULT_BUFFER_SIZES "ppg_window"
        1280).1 = true ∧
      Amused.get_buffer_size
        (Amused.set_buffer_size Amused.DEFAULT_BUFFER_SIZES "ppg_window"
          1280).2 "ppg_window" = 1280) :=
  ⟨(set_buffer_size_spec Amused.DEFAULT_BUFFER_SIZES "eeg_window" 50).1
      (by decide),
   (set_buffer_size_spec Amused.DEFAULT_BUFFER_SIZES "ppg_window" 1280).2
      (by decide) (by decide)⟩

/-- **C10.** When the address is a known key (keys unique, as in a Python
dict), `set_preferred_device` returns `True`, afterwards exactly the
device at that address has `preferred = True` and every other device has
`preferred = False`, and `get_preferred_device` returns that device; for
an unknown address it returns `False` and the device dict is unchanged. -/
theorem set_preferred_device_spec :
    ∀ (devices : List (String × Amused.MuseDevice)) (address : String),
      ((devices.map Prod.fst).Nodup →
        ∀ d₀, devices.lookup address = some d₀ →
          (Amused.set_preferred_device devices address).1 = true ∧
          (∀ p ∈ (Amused.set_preferred_device devices address).2,
              p.2.preferred = true ↔ p.1 = address) ∧
          Amused.get_preferred_device
              (Amused.set_preferred_device devices address).2 =
            some { d₀ with preferred := true }) ∧
      (devices.lookup address = none →
        Amused.set_preferred_device devices address = (false, devices)) := by
  intro devices address
  constructor
  · intro hnd d₀ hl
    have hup := Amused.preferred_update devices address d₀ hnd hl
    unfold Amused.set_preferred_device
    rw [hl]
    exact ⟨rfl, hup.1, hup.2⟩
  · intro hl
    unfold Amused.set_preferred_device
    rw [hl]
    rfl

/-- **C10 witness.** Preferring device `AA` in a two-device dict where
`BB` was previously preferred. -/
theorem set_preferred_device_spec_witness :
    (Amused.set_preferred_device Amused.sampleDevices "AA").1 = true ∧
    (∀ p ∈ (Amused.set_preferred_device Amused.sampleDevices "AA").2,
        p.2.preferred = true ↔ p.1 = "AA") ∧
    Amused.get_preferred_device
        (Amused.set_preferred_device Amused.sampleDevices "AA").2 =
      some { Amused.museA with preferred := true } :=
  (set_preferred_device_spec Amused.sampleDevices "AA").1 (by decide)
    Amused.museA (by decide)

/-- **C3.** (spec-modelled: the codec module is not among the repository
sources under src/.) Writing any sequence of records with non-decreasing
timestamps through the Binary Stream Codec and reading the file back
yields exactly as many records, in the same order, with byte-identical
payload and packet type, and with each timestamp preserved to at least
millisecond precision. -/
theorem codec_round_trip :
    ∀ records : List Amused.StreamRecord,
      (∀ r ∈ records, 0 ≤ r.timestamp ∧ r.packet_type < 256 ∧
        r.payload.length < 2 ^ 32 ∧ Amused.tsMillis r.timestamp < 2 ^ 64) →
      Amused.timestampsMonotone records = true →
      Amused.readStream (Amused.writeStream records) =
        records.map (fun r =>
          { r with timestamp := (Amused.tsMillis r.timestamp : ℚ) / 1000 }) ∧
      (Amused.readStream (Amused.writeStream records)).length =
        records.length ∧
      ∀ r ∈ records,
        |(Amused.tsMillis r.timestamp : ℚ) / 1000 - r.timestamp| ≤
          1 / 1000 := by
  intro records hv _
  have h1 : Amused.readStream (Amused.writeStream records) =
      records.map fun r =>
        { r with timestamp := (Amused.tsMillis r.timestamp : ℚ) / 1000 } :=
    Amused.readStreamAux_writeStream records
      (Amused.writeStream records).length
      (fun r hr => ⟨(hv r hr).2.2.1, (hv r hr).2.2.2⟩)
      (Amused.length_le_length_writeStream records)
  refine ⟨h1, by rw [h1, List.length_map], ?_⟩
  intro r hr
  exact Amused.tsMillis_precision r.timestamp (hv r hr).1

set_option maxRecDepth 100000 in
set_option maxHeartbeats 1000000 in
attribute [local semireducible] Rat.add Rat.mul Rat.inv Rat.sub in
/-- **C3 witness.** A concrete two-record session round-trips, and the
second record timestamp (1.5 s) survives within a millisecond. -/
theorem codec_round_trip_witness :
    Amused.readStream (Amused.writeStream Amused.sampleRecords) =
      Amused.sampleRecords.map (fun r =>
        { r with timestamp := (Amused.tsMillis r.timestamp : ℚ) / 1000 }) ∧
    |(Amused.tsMillis (3 / 2 : ℚ) : ℚ) / 1000 - 3 / 2| ≤ 1 / 1000 :=
  ⟨(codec_round_trip Amused.sampleRecords (by decide) (by decide)).1,
   (codec_round_trip Amused.sampleRecords (by decide) (by decide)).2.2
      { timestamp := 3 / 2, packet_type := 0xf4, payload := [] }
      (by decide)⟩
